import Mathlib

/-!
Verification of the schema migration engine of `english-in-use`
(`src-tauri/src/database/mod.rs`, `migrations.rs`, `sqlite.rs`,
`services/db_init.rs`, `commands/db.rs`).

The Rust code is shallowly embedded: pure functions become Lean
functions, the async trait-object `Database` becomes an explicit
state-passing record of operations, fallible code returns
`Option`/`Except`.  Version strings are parsed with a faithful model of
`semver::Version::parse` (SemVer 2.0 grammar as implemented by the
`semver` crate, including pre-release and build-metadata suffixes,
leading-zero rejection and the u64 bound on the three numeric
components), and version comparison is the crate's total order, encoded
through an order-preserving key into nested lexicographic products.
-/

namespace EngUse

/-! ## Splitting on the component delimiter

`v.split('.')` from Rust: splitting a string on `'.'` always yields at
least one (possibly empty) part; `n` dots yield `n + 1` parts. -/

def splitOnDot : List Char → List (List Char)
  | [] => [[]]
  | c :: cs =>
    if c = '.' then [] :: splitOnDot cs
    else
      match splitOnDot cs with
      | [] => [[c]]
      | p :: ps => (c :: p) :: ps

theorem splitOnDot_ne_nil (l : List Char) : splitOnDot l ≠ [] := by
  induction l with
  | nil => simp [splitOnDot]
  | cons c cs ih =>
    simp only [splitOnDot]
    split
    · simp
    · split
      · simp
      · simp

theorem splitOnDot_length (l : List Char) :
    (splitOnDot l).length = l.count '.' + 1 := by
  induction l with
  | nil => simp [splitOnDot]
  | cons c cs ih =>
    by_cases hc : c = '.'
    · simp [splitOnDot, hc, ih, List.count_cons]
    · cases hsp : splitOnDot cs with
      | nil => exact absurd hsp (splitOnDot_ne_nil cs)
      | cons p ps =>
        rw [hsp] at ih
        simp only [splitOnDot, if_neg hc, hsp, List.length_cons, List.count_cons] at *
        have : (c == '.') = false := by simpa using hc
        simp [this]
        omega

/-! ## `normalize_version` (database/mod.rs lines 39-46)

Pads a version string with `.0` components so that it has at least
three dot-separated parts: one part gets `".0.0"` appended, two parts
get `".0"`, anything else is returned unchanged. -/

def normalize_version (v : String) : String :=
  if (splitOnDot v.data).length = 1 then v ++ ".0.0"
  else if (splitOnDot v.data).length = 2 then v ++ ".0"
  else v

theorem normalize_version_components (v : String) :
    (splitOnDot (normalize_version v).data).length =
      if (splitOnDot v.data).length ≤ 2 then 3
      else (splitOnDot v.data).length := by
  have h0 : (splitOnDot v.data).length ≠ 0 := by
    intro h
    exact splitOnDot_ne_nil v.data (List.length_eq_zero.mp h)
  have hv := splitOnDot_length v.data
  have hA : (v ++ ".0.0").data = v.data ++ ".0.0".data := rfl
  have hB : (v ++ ".0").data = v.data ++ ".0".data := rfl
  have c2 : (".0.0".data).count '.' = 2 := by decide
  have c1 : (".0".data).count '.' = 1 := by decide
  unfold normalize_version
  by_cases h1 : (splitOnDot v.data).length = 1
  · rw [if_pos h1, hA, splitOnDot_length, List.count_append, c2, if_pos (by omega)]
    omega
  · rw [if_neg h1]
    by_cases h2 : (splitOnDot v.data).length = 2
    · rw [if_pos h2, hB, splitOnDot_length, List.count_append, c1, if_pos (by omega)]
      omega
    · rw [if_neg h2, if_neg (by omega)]

theorem normalize_version_idem (v : String) :
    normalize_version (normalize_version v) = normalize_version v := by
  have h := normalize_version_components v
  conv_lhs => rw [normalize_version]
  split at h
  · rw [h]
    norm_num
  · rw [h]
    have h0 : (splitOnDot v.data).length ≠ 0 := by
      intro h
      exact splitOnDot_ne_nil v.data (List.length_eq_zero.mp h)
    have h3 : ¬ (splitOnDot v.data).length ≤ 2 := by assumption
    rw [if_neg (by omega), if_neg (by omega)]

/-! ## Model of `semver::Version` and `semver::Version::parse`

The migration engine parses every normalized version string with
`semver::Version::parse` (SemVer 2.0 as implemented by the `semver`
crate, version 1.x): `MAJOR.MINOR.PATCH` where each numeric component
is a decimal integer with no leading zeros that fits in a `u64`,
optionally followed by `-` and a dot-separated pre-release (identifiers
over `[0-9A-Za-z-]`, nonempty, numeric identifiers without leading
zeros) and by `+` and a dot-separated build metadata (identifiers over
`[0-9A-Za-z-]`, nonempty, leading zeros allowed). -/

/-- A pre-release identifier: numeric (compared by value, below every
alphanumeric identifier) or alphanumeric (compared bytewise). -/
inductive PreId where
  | num (n : Nat)
  | alphanum (s : List Char)
deriving DecidableEq

/-- `semver::Version`: three numeric components plus optional
pre-release and build metadata. -/
structure Version where
  major : Nat
  minor : Nat
  patch : Nat
  pre : List PreId
  build : List (List Char)
deriving DecidableEq

/-- The `Version` corresponding to `"0.0.0"`. -/
def v000 : Version := ⟨0, 0, 0, [], []⟩

def u64Max : Nat := 18446744073709551615

def isIdentChar (c : Char) : Bool := c.isAlphanum || c = '-'

/-- Digits of a decimal numeral to its value (leading zeros allowed,
they do not change the value). -/
def digitsVal (cs : List Char) : Nat :=
  cs.foldl (fun a c => a * 10 + (c.toNat - 48)) 0

/-- Longest prefix of decimal digits, plus the remaining characters. -/
def takeDigits : List Char → List Char × List Char
  | [] => ([], [])
  | c :: cs =>
    if c.isDigit then
      let (d, r) := takeDigits cs
      (c :: d, r)
    else ([], c :: cs)

/-- Parse one numeric component of the version core: nonempty digit
run, no leading zeros, value bounded by `u64::MAX`. -/
def parseNumericPart (cs : List Char) : Option (Nat × List Char) :=
  match takeDigits cs with
  | ([], _) => none
  | ([d], rest) => some (digitsVal [d], rest)
  | (d :: ds, rest) =>
    if d = '0' then none
    else if digitsVal (d :: ds) ≤ u64Max then some (digitsVal (d :: ds), rest)
    else none

/-- Classify a pre-release identifier: nonempty; all-digit identifiers
are numeric and must not have leading zeros. -/
def classifyPre (cs : List Char) : Option PreId :=
  match cs with
  | [] => none
  | c :: rest =>
    if (c :: rest).all Char.isDigit then
      if rest ≠ [] ∧ c = '0' then none
      else some (.num (digitsVal (c :: rest)))
    else if (c :: rest).all isIdentChar then some (.alphanum (c :: rest))
    else none

/-- Parse the dot-separated pre-release identifiers; stops in front of
`'+'` (returning the rest, which then must be build metadata). -/
def parsePreLoop : List Char → List Char → List PreId →
    Option (List PreId × List Char)
  | [], curr, acc =>
    match classifyPre curr with
    | none => none
    | some i => some (acc ++ [i], [])
  | c :: cs, curr, acc =>
    if c = '.' then
      match classifyPre curr with
      | none => none
      | some i => parsePreLoop cs [] (acc ++ [i])
    else if c = '+' then
      match classifyPre curr with
      | none => none
      | some i => some (acc ++ [i], c :: cs)
    else if isIdentChar c then parsePreLoop cs (curr ++ [c]) acc
    else none

/-- A build identifier: nonempty, characters in `[0-9A-Za-z-]`. -/
def classifyBuild (cs : List Char) : Option (List Char) :=
  match cs with
  | [] => none
  | c :: rest =>
    if (c :: rest).all isIdentChar then some (c :: rest) else none

/-- Parse the dot-separated build identifiers up to the end of input. -/
def parseBuildLoop : List Char → List Char → List (List Char) →
    Option (List (List Char))
  | [], curr, acc =>
    match classifyBuild curr with
    | none => none
    | some i => some (acc ++ [i])
  | c :: cs, curr, acc =>
    if c = '.' then
      match classifyBuild curr with
      | none => none
      | some i => parseBuildLoop cs [] (acc ++ [i])
    else if isIdentChar c then parseBuildLoop cs (curr ++ [c]) acc
    else none

/-- `semver::Version::parse` on a character list. -/
def parseVersionChars (cs : List Char) : Option Version :=
  match parseNumericPart cs with
  | none => none
  | some (maj, r₁) =>
    match r₁ with
    | '.' :: r₂ =>
      match parseNumericPart r₂ with
      | none => none
      | some (mnr, r₃) =>
        match r₃ with
        | '.' :: r₄ =>
          match parseNumericPart r₄ with
          | none => none
          | some (pat, r₅) =>
            match r₅ with
            | [] => some ⟨maj, mnr, pat, [], []⟩
            | '-' :: r₆ =>
              match parsePreLoop r₆ [] [] with
              | none => none
              | some (pre, rest) =>
                match rest with
                | [] => some ⟨maj, mnr, pat, pre, []⟩
                | '+' :: r₇ =>
                  match parseBuildLoop r₇ [] [] with
                  | none => none
                  | some b => some ⟨maj, mnr, pat, pre, b⟩
                | _ => none
            | '+' :: r₆ =>
              match parseBuildLoop r₆ [] [] with
              | none => none
              | some b => some ⟨maj, mnr, pat, [], b⟩
            | _ => none
        | _ => none
    | _ => none

/-- `semver::Version::parse`. -/
def parseVersion (s : String) : Option Version := parseVersionChars s.data

example : parseVersion "0.0.0" = some v000 := by decide
example : parseVersion "1.2.3" = some ⟨1, 2, 3, [], []⟩ := by decide
example : parseVersion "0.1.0" = some ⟨0, 1, 0, [], []⟩ := by decide
example : parseVersion "1.2" = none := by decide
example : parseVersion "1.2.3.4" = none := by decide
example : parseVersion "01.2.3" = none := by decide
example : parseVersion "abc.0.0" = none := by decide
example : parseVersion "1.2.3-alpha.1" =
    some ⟨1, 2, 3, [.alphanum ['a','l','p','h','a'], .num 1], []⟩ := by decide
example : parseVersion "1.2.3-01" = none := by decide
example : parseVersion "1.2.3+007" = some ⟨1, 2, 3, [], [['0','0','7']]⟩ := by
  decide
example : parseVersion "" = none := by decide

/-! ## The total order on versions

The `semver` crate orders versions by major, minor, patch, then
pre-release (absence of pre-release is greater than any pre-release;
identifiers are compared position by position, numeric by value and
below alphanumeric, alphanumeric bytewise; a longer identifier list
wins over its prefix), then build metadata as a tiebreaker (absence is
smaller; all-digit identifiers compare by value then by length, and
below non-digit ones; others bytewise).  We encode this order through
an order-preserving key into nested lexicographic products, so that
transitivity and totality come from the `LinearOrder` instances. -/

abbrev PreIdKeyT := Bool ×ₗ (Nat ×ₗ List Char)

abbrev BuildIdKeyT := Bool ×ₗ (Nat ×ₗ (Nat ×ₗ List Char))

abbrev VKeyT :=
  Nat ×ₗ (Nat ×ₗ (Nat ×ₗ ((Bool ×ₗ List PreIdKeyT) ×ₗ List BuildIdKeyT)))

def preIdKey : PreId → PreIdKeyT
  | .num n => toLex (false, toLex (n, []))
  | .alphanum s => toLex (true, toLex (0, s))

/-- Pre-release key: a release (empty pre-release list) is greater than
any pre-release, hence the `isEmpty` flag comes first. -/
def preKey (pre : List PreId) : Bool ×ₗ List PreIdKeyT :=
  toLex (pre.isEmpty, pre.map preIdKey)

/-- Build identifier key: all-digit identifiers compare by value, then
by length (so `"0" < "00" < "1" < "01" < "001" < "2"`), and are below
non-digit identifiers, which compare bytewise. -/
def buildIdKey (s : List Char) : BuildIdKeyT :=
  if s.all Char.isDigit then toLex (false, toLex (digitsVal s, toLex (s.length, [])))
  else toLex (true, toLex (0, toLex (0, s)))

def versionKey (v : Version) : VKeyT :=
  toLex (v.major, toLex (v.minor, toLex (v.patch,
    toLex (preKey v.pre, v.build.map buildIdKey))))

/-- `a < b` on `semver::Version` (the strict order used by
`migration_version > current` etc. in the migration runner). -/
def vlt (a b : Version) : Prop := versionKey a < versionKey b

/-- `a <= b` on `semver::Version` (used by
`migration_version <= current_db_version` in `migrate_down`). -/
def vle (a b : Version) : Prop := versionKey a ≤ versionKey b

instance : DecidableRel vlt := fun a b =>
  inferInstanceAs (Decidable (versionKey a < versionKey b))

instance : DecidableRel vle := fun a b =>
  inferInstanceAs (Decidable (versionKey a ≤ versionKey b))

theorem vlt_trans {a b c : Version} (h₁ : vlt a b) (h₂ : vlt b c) :
    vlt a c := lt_trans h₁ h₂

theorem vlt_irrefl (a : Version) : ¬ vlt a a := lt_irrefl _

theorem vlt_asymm {a b : Version} (h : vlt a b) : ¬ vlt b a :=
  lt_asymm h

theorem vle_of_not_vlt {a b : Version} (h : ¬ vlt a b) : vle b a :=
  le_of_not_lt h

theorem not_vlt_of_vle {a b : Version} (h : vle a b) : ¬ vlt b a :=
  not_lt_of_le h

theorem vlt_of_vle_of_vlt {a b c : Version} (h₁ : vle a b) (h₂ : vlt b c) :
    vlt a c := lt_of_le_of_lt h₁ h₂

theorem vlt_of_vlt_of_vle {a b c : Version} (h₁ : vlt a b) (h₂ : vle b c) :
    vlt a c := lt_of_lt_of_le h₁ h₂

example : vlt v000 ⟨0, 1, 0, [], []⟩ := by decide
example : vlt ⟨1, 2, 3, [.alphanum ['a']], []⟩ ⟨1, 2, 3, [], []⟩ := by decide
example : vlt ⟨1, 2, 3, [.num 5], []⟩ ⟨1, 2, 3, [.alphanum ['a']], []⟩ := by
  decide
example : ¬ vlt ⟨0, 1, 0, [], []⟩ ⟨0, 1, 0, [], []⟩ := by decide

/-! ## Migration catalog and backend abstraction

`Migration` is `database/migrations.rs`'s record.  The async trait
`Database` (database/mod.rs lines 15-31) becomes a record of
state-passing operations over an abstract backend state `σ`: `execute`
and `set_version` either succeed or produce a backend error `ε` (the
state is threaded through even on failure, as the real store's side
effects persist), `get_version` produces the stored marker text or an
error.  `query` is never used by the migration runner and is omitted. -/

structure Migration where
  version : String
  up : String
  down : String
deriving DecidableEq

structure Backend (σ ε : Type) where
  execute : σ → String → σ × Option ε
  getVersion : σ → σ × Except ε String
  setVersion : σ → String → σ × Option ε

/-- An error escaping `migrate_up`/`migrate_down` (`anyhow::Error` in
the source): a `semver` parse error on the recorded string, or a
backend error. -/
inductive MigErr (ε : Type) where
  | parse (s : String)
  | backend (e : ε)
deriving DecidableEq

/-- Parse of a record's version, after normalization, as done at the
top of each loop iteration of the runner. -/
def pvOpt (m : Migration) : Option Version :=
  parseVersion (normalize_version m.version)

/-- The parsed version of a record (meaningful when `pvOpt` succeeds). -/
def pv (m : Migration) : Version := (pvOpt m).getD v000

/-- Parse of an arbitrary version string after normalization, with the
`0.0.0` default used for the stored current version
(`Version::parse(..).unwrap_or_else(|_| Version::parse("0.0.0"))`). -/
def pvStr (s : String) : Version :=
  (parseVersion (normalize_version s)).getD v000

/-! ## `migrate_up_with_list` (database/mod.rs lines 73-105) -/

/-- The `for migration in migrations` loop of `migrate_up_with_list`:
parse each record's version; records at or below `current` are
skipped; at the first record above the target the traversal stops with
success; otherwise `execute(up)` then `set_version` are run, each
aborting with its error. -/
def upLoop {σ ε : Type} (b : Backend σ ε) (current : Version)
    (target : Option Version) :
    σ → List Migration → σ × Option (MigErr ε)
  | s, [] => (s, none)
  | s, m :: rest =>
    match pvOpt m with
    | none => (s, some (.parse (normalize_version m.version)))
    | some mv =>
      if vlt current mv then
        if (match target with
            | some tv => decide (vlt tv mv)
            | none => false) then
          (s, none)
        else
          match b.execute s m.up with
          | (s₁, some e) => (s₁, some (.backend e))
          | (s₁, none) =>
            match b.setVersion s₁ m.version with
            | (s₂, some e) => (s₂, some (.backend e))
            | (s₂, none) => upLoop b current target s₂ rest
      else upLoop b current target s rest

/-- `migrate_up_with_list`: read and normalize the stored version
(parse failures fall back to `0.0.0`), parse the target if given
(parse failures abort), then run the ascending traversal. -/
def migrate_up_with_list {σ ε : Type} (b : Backend σ ε) (s : σ)
    (target : Option String) (migrations : List Migration) :
    σ × Option (MigErr ε) :=
  match b.getVersion s with
  | (s', .error e) => (s', some (.backend e))
  | (s', .ok verStr) =>
    let current := pvStr verStr
    match target with
    | some t =>
      match parseVersion (normalize_version t) with
      | none => (s', some (.parse (normalize_version t)))
      | some tv => upLoop b current (some tv) s' migrations
    | none => upLoop b current none s' migrations

/-- Canonical forward application: execute each record's `up` text and
then `set_version` with the record's version, in list order, aborting
at the first failing call. -/
def upApply {σ ε : Type} (b : Backend σ ε) :
    σ → List Migration → σ × Option (MigErr ε)
  | s, [] => (s, none)
  | s, m :: rest =>
    match b.execute s m.up with
    | (s₁, some e) => (s₁, some (.backend e))
    | (s₁, none) =>
      match b.setVersion s₁ m.version with
      | (s₂, some e) => (s₂, some (.backend e))
      | (s₂, none) => upApply b s₂ rest

/-- The records `migrate_up` must apply: version strictly above the
current one and, when a target is given, not above the target. -/
def keepUp (current : Version) (target : Option Version)
    (m : Migration) : Bool :=
  decide (vlt current (pv m)) &&
    (match target with
     | some tv => ! decide (vlt tv (pv m))
     | none => true)

/-! ## `migrate_down_with_list` (database/mod.rs lines 112-160) -/

/-- Target resolution of `migrate_down_with_list` (lines 122-134): an
explicit target is normalized and parsed; otherwise the greatest
catalog version strictly below `current` is computed (defaulting to
`0.0.0`), parsing every record's version along the way. -/
def resolveLoop (current : Version) :
    List Migration → Version → Except String Version
  | [], acc => .ok acc
  | m :: rest, acc =>
    match pvOpt m with
    | none => .error (normalize_version m.version)
    | some mv =>
      resolveLoop current rest
        (if vlt mv current ∧ vlt acc mv then mv else acc)

def resolveDownTarget (target : Option String)
    (migrations : List Migration) (current : Version) :
    Except String Version :=
  match target with
  | some t =>
    match parseVersion (normalize_version t) with
    | none => .error (normalize_version t)
    | some tv => .ok tv
  | none => resolveLoop current migrations v000

/-- The inner loop of `migrate_down_with_list` computing the version
preceding `mv` in the catalog (lines 147-155): walk the catalog in
ascending construction order, remembering the last version strictly
below `mv`, and stop at the first record not below it. -/
def prevLoop (mv : Version) :
    List Migration → String → Except String String
  | [], acc => .ok acc
  | m :: rest, acc =>
    match pvOpt m with
    | none => .error (normalize_version m.version)
    | some mvm =>
      if vlt mvm mv then prevLoop mv rest m.version else .ok acc

/-- The `for migration in migrations.iter().rev()` loop of
`migrate_down_with_list`: records with version at most `current` and
strictly above the target are processed — `execute(down)` unless the
down text is empty, then the preceding catalog version is computed and
written with `set_version`. -/
def downLoop {σ ε : Type} (b : Backend σ ε) (current target : Version)
    (all : List Migration) :
    σ → List Migration → σ × Option (MigErr ε)
  | s, [] => (s, none)
  | s, m :: rest =>
    match pvOpt m with
    | none => (s, some (.parse (normalize_version m.version)))
    | some mv =>
      if vle mv current ∧ vlt target mv then
        match (if m.down = "" then (s, none) else b.execute s m.down) with
        | (s₁, some e) => (s₁, some (.backend e))
        | (s₁, none) =>
          match prevLoop mv all "0.0.0" with
          | .error str => (s₁, some (.parse str))
          | .ok prev =>
            match b.setVersion s₁ prev with
            | (s₂, some e) => (s₂, some (.backend e))
            | (s₂, none) => downLoop b current target all s₂ rest
      else downLoop b current target all s rest

/-- `migrate_down_with_list`: read and normalize the stored version
(parse failures fall back to `0.0.0`), resolve the target, then run
the descending traversal over the reversed catalog. -/
def migrate_down_with_list {σ ε : Type} (b : Backend σ ε) (s : σ)
    (target : Option String) (migrations : List Migration) :
    σ × Option (MigErr ε) :=
  match b.getVersion s with
  | (s', .error e) => (s', some (.backend e))
  | (s', .ok verStr) =>
    let current := pvStr verStr
    match resolveDownTarget target migrations current with
    | .error str => (s', some (.parse str))
    | .ok tv => downLoop b current tv migrations s' migrations.reverse

/-- The greatest catalog version strictly below `mv`, as a raw record
version string, defaulting to `"0.0.0"` — what the spec says the
downgrade marker update writes. -/
def specGreatestBelow (migrations : List Migration) (mv : Version) :
    String :=
  ((migrations.filter (fun m => decide (vlt (pv m) mv))).map
      (fun m => m.version)).getLastD "0.0.0"

/-- Canonical backward application: for each record in list order,
execute its `down` text unless empty, then write the greatest catalog
version strictly below the record's version (`"0.0.0"` if none) as the
new marker, aborting at the first failing call. -/
def downSpecApply {σ ε : Type} (b : Backend σ ε)
    (all : List Migration) :
    σ → List Migration → σ × Option (MigErr ε)
  | s, [] => (s, none)
  | s, m :: rest =>
    match (if m.down = "" then (s, none) else b.execute s m.down) with
    | (s₁, some e) => (s₁, some (.backend e))
    | (s₁, none) =>
      match b.setVersion s₁ (specGreatestBelow all (pv m)) with
      | (s₂, some e) => (s₂, some (.backend e))
      | (s₂, none) => downSpecApply b all s₂ rest

/-- The records `migrate_down` must process: version at most the
current one and strictly above the resolved target. -/
def keepDown (current target : Version) (m : Migration) : Bool :=
  decide (vle (pv m) current) && decide (vlt target (pv m))

/-! ## A concrete test backend

A test double in the spirit of the repository's own mocks: the state
records the stored marker and a log of the calls made; designated
statements or versions fail. -/

structure MockSt where
  ver : String
  log : List String
deriving DecidableEq

def mkMock (failExec failSet : List String) : Backend MockSt Unit where
  execute := fun s sql =>
    ({ s with log := s.log ++ ["E:" ++ sql] },
     if failExec.contains sql then some () else none)
  getVersion := fun s => (s, .ok s.ver)
  setVersion := fun s v =>
    if failSet.contains v then
      ({ s with log := s.log ++ ["V:" ++ v] }, some ())
    else ({ ver := v, log := s.log ++ ["V:" ++ v] }, none)

/-- The all-succeeding test backend. -/
def okMock : Backend MockSt Unit := mkMock [] []

/-- The two-record catalog of the repository's `test_migration_logic`. -/
def demoCat : List Migration :=
  [⟨"0.1.0", "u1", "d1"⟩, ⟨"0.2.0", "u2", "d2"⟩]

example : migrate_up_with_list okMock ⟨"0.0.0", []⟩ (some "0.1.0") demoCat =
    (⟨"0.1.0", ["E:u1", "V:0.1.0"]⟩, none) := by decide

example : migrate_up_with_list okMock ⟨"0.1.0", []⟩ none demoCat =
    (⟨"0.2.0", ["E:u2", "V:0.2.0"]⟩, none) := by decide

example : migrate_down_with_list okMock ⟨"0.2.0", []⟩ (some "0.1.0") demoCat =
    (⟨"0.1.0", ["E:d2", "V:0.1.0"]⟩, none) := by decide

example : migrate_down_with_list okMock ⟨"0.1.0", []⟩ (some "0.0.0") demoCat =
    (⟨"0.0.0", ["E:d1", "V:0.0.0"]⟩, none) := by decide

example : migrate_down_with_list okMock ⟨"0.2.0", []⟩ none demoCat =
    (⟨"0.1.0", ["E:d2", "V:0.1.0"]⟩, none) := by decide

example : migrate_down_with_list okMock ⟨"0.2.0", []⟩ (some "0.0.0")
      [⟨"0.1.0", "u1", "d1"⟩, ⟨"0.2.0", "u2", ""⟩] =
    (⟨"0.0.0", ["V:0.1.0", "E:d1", "V:0.0.0"]⟩, none) := by decide

/-! ## Characterization lemmas for the ascending traversal -/

theorem upStep_congr {σ ε : Type} (b : Backend σ ε) (m : Migration)
    (s : σ) (k₁ k₂ : σ → σ × Option (MigErr ε))
    (h : ∀ s', k₁ s' = k₂ s') :
    (match b.execute s m.up with
     | (s₁, some e) => (s₁, some (MigErr.backend e))
     | (s₁, none) =>
       match b.setVersion s₁ m.version with
       | (s₂, some e) => (s₂, some (MigErr.backend e))
       | (s₂, none) => k₁ s₂) =
    (match b.execute s m.up with
     | (s₁, some e) => (s₁, some (MigErr.backend e))
     | (s₁, none) =>
       match b.setVersion s₁ m.version with
       | (s₂, some e) => (s₂, some (MigErr.backend e))
       | (s₂, none) => k₂ s₂) := by
  rcases b.execute s m.up with ⟨s₁, _ | e⟩
  · show (match b.setVersion s₁ m.version with
          | (s₂, some e) => (s₂, some (MigErr.backend e))
          | (s₂, none) => k₁ s₂) =
        (match b.setVersion s₁ m.version with
          | (s₂, some e) => (s₂, some (MigErr.backend e))
          | (s₂, none) => k₂ s₂)
    rcases b.setVersion s₁ m.version with ⟨s₂, _ | e⟩
    · exact h s₂
    · rfl
  · rfl

theorem upLoop_eq_upApply {σ ε : Type} (b : Backend σ ε)
    (current : Version) (target : Option Version) (ms : List Migration) :
    ∀ (s : σ),
    (∀ m ∈ ms, (pvOpt m).isSome = true) →
    ms.Pairwise (fun a c => vlt (pv a) (pv c)) →
    upLoop b current target s ms =
      upApply b s (ms.filter (keepUp current target)) := by
  induction ms with
  | nil => intro s _ _; rfl
  | cons m rest ih =>
    intro s hparse hsorted
    have hm : (pvOpt m).isSome = true := hparse m (by simp)
    obtain ⟨mv, hmv⟩ := Option.isSome_iff_exists.mp hm
    have hpv : pv m = mv := by simp [pv, hmv]
    rw [List.pairwise_cons] at hsorted
    obtain ⟨hhead, hrest⟩ := hsorted
    have hparseRest : ∀ m' ∈ rest, (pvOpt m').isSome = true :=
      fun m' h => hparse m' (by simp [h])
    by_cases hcur : vlt current mv
    · by_cases hbrk : ∃ tv, target = some tv ∧ vlt tv mv
      · -- first record above the target: traversal stops
        obtain ⟨tv, rfl, htv⟩ := hbrk
        have hkeep : keepUp current (some tv) m = false := by
          simp [keepUp, hpv, htv]
        rw [List.filter_cons_of_neg (by simp [hkeep])]
        have hnil : rest.filter (keepUp current (some tv)) = [] := by
          rw [List.filter_eq_nil_iff]
          intro m' hm'
          have h1 : vlt mv (pv m') := hpv ▸ hhead m' hm'
          have h2 : vlt tv (pv m') := vlt_trans htv h1
          simp [keepUp, h2]
        rw [hnil]
        simp [upLoop, hmv, if_pos hcur, htv, upApply]
      · -- pending and not above the target: the record is applied
        have hkeep : keepUp current target m = true := by
          rcases target with _ | tv
          · simp [keepUp, hpv, hcur]
          · have htv : ¬ vlt tv mv := by
              intro h
              exact hbrk ⟨tv, rfl, h⟩
            simp [keepUp, hpv, hcur, htv]
        rw [List.filter_cons_of_pos hkeep]
        have hstep : upLoop b current target s (m :: rest) =
            match b.execute s m.up with
            | (s₁, some e) => (s₁, some (.backend e))
            | (s₁, none) =>
              match b.setVersion s₁ m.version with
              | (s₂, some e) => (s₂, some (.backend e))
              | (s₂, none) => upLoop b current target s₂ rest := by
          rcases target with _ | tv
          · simp [upLoop, hmv, if_pos hcur]
          · have htv : ¬ vlt tv mv := by
              intro h
              exact hbrk ⟨tv, rfl, h⟩
            simp [upLoop, hmv, if_pos hcur, htv]
        rw [hstep]
        simp only [upApply]
        exact upStep_congr b m s _ _ (fun s' => ih s' hparseRest hrest)
    · -- at or below the current version: skipped
      have hkeep : keepUp current target m = false := by
        simp [keepUp, hpv, hcur]
      rw [List.filter_cons_of_neg (by simp [hkeep])]
      simp only [upLoop, hmv, if_neg hcur]
      exact ih s hparseRest hrest

theorem upApply_append {σ ε : Type} (b : Backend σ ε)
    (l₁ l₂ : List Migration) :
    ∀ s, upApply b s (l₁ ++ l₂) =
      match upApply b s l₁ with
      | (s₁, none) => upApply b s₁ l₂
      | (s₁, some e) => (s₁, some e) := by
  induction l₁ with
  | nil => intro s; rfl
  | cons m rest ih =>
    intro s
    simp only [List.cons_append, upApply]
    rcases b.execute s m.up with ⟨s₁, _ | e⟩
    · show (match b.setVersion s₁ m.version with
            | (s₂, some e) => (s₂, some (MigErr.backend e))
            | (s₂, none) => upApply b s₂ (rest ++ l₂)) =
          (match (match b.setVersion s₁ m.version with
                  | (s₂, some e) => (s₂, some (MigErr.backend e))
                  | (s₂, none) => upApply b s₂ rest) with
            | (s₁, none) => upApply b s₁ l₂
            | (s₁, some e) => (s₁, some e))
      rcases b.setVersion s₁ m.version with ⟨s₂, _ | e⟩
      · exact ih s₂
      · rfl
    · rfl

/-- The full `migrate_up_with_list` as the canonical application of
the filtered catalog (helper shared by several theorems below). -/
theorem migrate_up_filter_spec {σ ε : Type}
    (b : Backend σ ε) (s s' : σ) (verStr : String)
    (target : Option String) (ms : List Migration)
    (hget : b.getVersion s = (s', Except.ok verStr))
    (hparse : ∀ m ∈ ms, (pvOpt m).isSome = true)
    (hsorted : ms.Pairwise (fun a c => vlt (pv a) (pv c)))
    (htgt : ∀ t ∈ target,
      (parseVersion (normalize_version t)).isSome = true) :
    migrate_up_with_list b s target ms =
      upApply b s'
        (ms.filter (keepUp (pvStr verStr) (target.map pvStr))) := by
  simp only [migrate_up_with_list, hget]
  rcases target with _ | t
  · simp only [Option.map_none']
    exact upLoop_eq_upApply b (pvStr verStr) none ms s' hparse hsorted
  · have ht := htgt t (by simp)
    obtain ⟨tv, htv⟩ := Option.isSome_iff_exists.mp ht
    have hpt : pvStr t = tv := by simp [pvStr, htv]
    simp only [htv, Option.map_some', hpt]
    exact upLoop_eq_upApply b (pvStr verStr) (some tv) ms s' hparse hsorted

/-- C1: for every backend, catalog and optional target (with the
stored version read successfully, every catalog version and the target
parsing after normalization, and the catalog strictly ascending),
`migrate_up` applies exactly the catalog records whose normalized
version is strictly greater than the normalized current stored version
and, when a target is given, not greater than the normalized target,
in ascending catalog order, each as `execute(up)` followed by
`set_version(version)`; everything past the first record above the
target (in particular that record itself) is never applied. -/
theorem migrate_up_applies_exactly_pending {σ ε : Type}
    (b : Backend σ ε) (s s' : σ) (verStr : String)
    (target : Option String) (ms : List Migration)
    (hget : b.getVersion s = (s', Except.ok verStr))
    (hparse : ∀ m ∈ ms, (pvOpt m).isSome = true)
    (hsorted : ms.Pairwise (fun a c => vlt (pv a) (pv c)))
    (htgt : ∀ t ∈ target,
      (parseVersion (normalize_version t)).isSome = true) :
    migrate_up_with_list b s target ms =
      upApply b s'
        (ms.filter (keepUp (pvStr verStr) (target.map pvStr))) :=
  migrate_up_filter_spec b s s' verStr target ms hget hparse hsorted htgt

/-- The three-record catalog used to exercise the runner theorems. -/
def threeCat : List Migration :=
  [⟨"0.1.0", "u1", "d1"⟩, ⟨"0.2.0", "u2", "d2"⟩, ⟨"0.3.0", "u3", "d3"⟩]

theorem migrate_up_applies_exactly_pending_witness :
    okMock.getVersion ⟨"0.1.0", []⟩ =
      (⟨"0.1.0", []⟩, Except.ok "0.1.0") ∧
    (∀ m ∈ threeCat, (pvOpt m).isSome = true) ∧
    threeCat.Pairwise (fun a c => vlt (pv a) (pv c)) ∧
    (∀ t ∈ (some "0.2.0" : Option String),
      (parseVersion (normalize_version t)).isSome = true) ∧
    migrate_up_with_list okMock ⟨"0.1.0", []⟩ (some "0.2.0") threeCat =
      upApply okMock ⟨"0.1.0", []⟩
        (threeCat.filter
          (keepUp (pvStr "0.1.0") ((some "0.2.0").map pvStr))) :=
  ⟨rfl, by decide, by decide, by decide,
   migrate_up_applies_exactly_pending okMock ⟨"0.1.0", []⟩ ⟨"0.1.0", []⟩
     "0.1.0" (some "0.2.0") threeCat rfl (by decide) (by decide)
     (by decide)⟩

/-- The backend whose `execute` fails on the statement `"u2"`, the
second of the three pending migrations of `threeCat`. -/
def failMock : Backend MockSt Unit := mkMock ["u2"] []

/-! ## Characterization lemmas for the descending traversal -/

instance {α β : Type} [DecidableEq α] [DecidableEq β] :
    DecidableEq (Except α β) := fun x y =>
  match x, y with
  | .error a, .error b =>
    if h : a = b then isTrue (by rw [h])
    else isFalse fun hh => h (Except.error.inj hh)
  | .error _, .ok _ => isFalse fun hh => Except.noConfusion hh
  | .ok _, .error _ => isFalse fun hh => Except.noConfusion hh
  | .ok a, .ok b =>
    if h : a = b then isTrue (by rw [h])
    else isFalse fun hh => h (Except.ok.inj hh)

theorem vle_refl (a : Version) : vle a a := le_refl _

theorem vle_trans {a b c : Version} (h₁ : vle a b) (h₂ : vle b c) :
    vle a c := le_trans h₁ h₂

theorem vle_of_vlt {a b : Version} (h : vlt a b) : vle a b := le_of_lt h

theorem prevLoop_eq_specGreatestBelow (mv : Version)
    (ms : List Migration) :
    ∀ acc, (∀ m ∈ ms, (pvOpt m).isSome = true) →
    ms.Pairwise (fun a c => vlt (pv a) (pv c)) →
    prevLoop mv ms acc =
      .ok (((ms.filter (fun m => decide (vlt (pv m) mv))).map
        (fun m => m.version)).getLastD acc) := by
  induction ms with
  | nil => intro acc _ _; rfl
  | cons m rest ih =>
    intro acc hparse hsorted
    have hm : (pvOpt m).isSome = true := hparse m (by simp)
    obtain ⟨mvm, hmvm⟩ := Option.isSome_iff_exists.mp hm
    have hpv : pv m = mvm := by simp [pv, hmvm]
    rw [List.pairwise_cons] at hsorted
    obtain ⟨hhead, hrest⟩ := hsorted
    have hparseRest : ∀ m' ∈ rest, (pvOpt m').isSome = true :=
      fun m' h => hparse m' (by simp [h])
    by_cases hlt : vlt mvm mv
    · rw [List.filter_cons_of_pos (by simp [hpv, hlt])]
      simp only [prevLoop, hmvm, if_pos hlt, List.map_cons,
        List.getLastD_cons]
      exact ih m.version hparseRest hrest
    · have hnil : rest.filter (fun m' => decide (vlt (pv m') mv)) = [] := by
        rw [List.filter_eq_nil_iff]
        intro m' hm'
        have h1 : vlt mvm (pv m') := hpv ▸ hhead m' hm'
        have h2 : vlt mv (pv m') := vlt_of_vle_of_vlt (vle_of_not_vlt hlt) h1
        simp [vlt_asymm h2]
      rw [List.filter_cons_of_neg (by simp [hpv, hlt]), hnil]
      simp [prevLoop, hmvm, hlt]

theorem downStep_congr {σ ε : Type} (b : Backend σ ε) (m : Migration)
    (s : σ) (prev : String) (k₁ k₂ : σ → σ × Option (MigErr ε))
    (h : ∀ s', k₁ s' = k₂ s') :
    (match (if m.down = "" then (s, (none : Option ε))
            else b.execute s m.down) with
     | (s₁, some e) => (s₁, some (MigErr.backend e))
     | (s₁, none) =>
       match b.setVersion s₁ prev with
       | (s₂, some e) => (s₂, some (MigErr.backend e))
       | (s₂, none) => k₁ s₂) =
    (match (if m.down = "" then (s, (none : Option ε))
            else b.execute s m.down) with
     | (s₁, some e) => (s₁, some (MigErr.backend e))
     | (s₁, none) =>
       match b.setVersion s₁ prev with
       | (s₂, some e) => (s₂, some (MigErr.backend e))
       | (s₂, none) => k₂ s₂) := by
  rcases (if m.down = "" then (s, (none : Option ε))
      else b.execute s m.down) with ⟨s₁, _ | e⟩
  · show (match b.setVersion s₁ prev with
          | (s₂, some e) => (s₂, some (MigErr.backend e))
          | (s₂, none) => k₁ s₂) =
        (match b.setVersion s₁ prev with
          | (s₂, some e) => (s₂, some (MigErr.backend e))
          | (s₂, none) => k₂ s₂)
    rcases b.setVersion s₁ prev with ⟨s₂, _ | e⟩
    · exact h s₂
    · rfl
  · rfl

theorem downLoop_eq_downSpecApply {σ ε : Type} (b : Backend σ ε)
    (current target : Version) (all : List Migration)
    (hall : ∀ m ∈ all, (pvOpt m).isSome = true)
    (hsortedAll : all.Pairwise (fun a c => vlt (pv a) (pv c)))
    (l : List Migration) :
    ∀ s : σ, (∀ m ∈ l, (pvOpt m).isSome = true) →
    downLoop b current target all s l =
      downSpecApply b all s (l.filter (keepDown current target)) := by
  induction l with
  | nil => intro s _; rfl
  | cons m rest ih =>
    intro s hparse
    have hm : (pvOpt m).isSome = true := hparse m (by simp)
    obtain ⟨mvm, hmvm⟩ := Option.isSome_iff_exists.mp hm
    have hpv : pv m = mvm := by simp [pv, hmvm]
    have hparseRest : ∀ m' ∈ rest, (pvOpt m').isSome = true :=
      fun m' h => hparse m' (by simp [h])
    by_cases hc : vle mvm current ∧ vlt target mvm
    · have hkeep : keepDown current target m = true := by
        simp [keepDown, hpv, hc.1, hc.2]
      rw [List.filter_cons_of_pos hkeep]
      have hprev : prevLoop mvm all "0.0.0" =
          .ok (specGreatestBelow all mvm) :=
        prevLoop_eq_specGreatestBelow mvm all "0.0.0" hall hsortedAll
      have hstep : downLoop b current target all s (m :: rest) =
          match (if m.down = "" then (s, (none : Option ε))
                 else b.execute s m.down) with
          | (s₁, some e) => (s₁, some (MigErr.backend e))
          | (s₁, none) =>
            match b.setVersion s₁ (specGreatestBelow all mvm) with
            | (s₂, some e) => (s₂, some (MigErr.backend e))
            | (s₂, none) => downLoop b current target all s₂ rest := by
        simp only [downLoop, hmvm, if_pos hc, hprev]
      rw [hstep]
      simp only [downSpecApply, hpv]
      exact downStep_congr b m s (specGreatestBelow all mvm) _ _
        (fun s' => ih s' hparseRest)
    · have hkeep : keepDown current target m = false := by
        rcases Decidable.not_and_iff_or_not.mp hc with h | h
        · simp [keepDown, hpv, h]
        · simp [keepDown, hpv, h]
      rw [List.filter_cons_of_neg (by simp [hkeep])]
      simp only [downLoop, hmvm, if_neg hc]
      exact ih s hparseRest

/-- The full `migrate_down_with_list` as the canonical application of
the reversed filtered catalog (helper shared by theorems below). -/
theorem migrate_down_filter_spec {σ ε : Type} (b : Backend σ ε)
    (s s' : σ) (verStr : String) (target : Option String) (tv : Version)
    (ms : List Migration)
    (hget : b.getVersion s = (s', Except.ok verStr))
    (hparse : ∀ m ∈ ms, (pvOpt m).isSome = true)
    (hsorted : ms.Pairwise (fun a c => vlt (pv a) (pv c)))
    (hres : resolveDownTarget target ms (pvStr verStr) = .ok tv) :
    migrate_down_with_list b s target ms =
      downSpecApply b ms s'
        (ms.reverse.filter (keepDown (pvStr verStr) tv)) := by
  simp only [migrate_down_with_list, hget, hres]
  exact downLoop_eq_downSpecApply b (pvStr verStr) tv ms hparse hsorted
    ms.reverse s' (fun m h => hparse m (List.mem_reverse.mp h))

/-- C3: every record processed by `migrate_down` — normalized version
at most the current one and strictly above the resolved target,
traversed in descending catalog order — has its `down` text executed
unless that text is empty (execution skipped, marker still updated),
followed by `set_version` with the greatest catalog version strictly
below the record's version, or `"0.0.0"` if none exists. -/
theorem migrate_down_processes_exactly {σ ε : Type} (b : Backend σ ε)
    (s s' : σ) (verStr : String) (target : Option String) (tv : Version)
    (ms : List Migration)
    (hget : b.getVersion s = (s', Except.ok verStr))
    (hparse : ∀ m ∈ ms, (pvOpt m).isSome = true)
    (hsorted : ms.Pairwise (fun a c => vlt (pv a) (pv c)))
    (hres : resolveDownTarget target ms (pvStr verStr) = .ok tv) :
    migrate_down_with_list b s target ms =
      downSpecApply b ms s'
        (ms.reverse.filter (keepDown (pvStr verStr) tv)) :=
  migrate_down_filter_spec b s s' verStr target tv ms hget hparse
    hsorted hres

theorem migrate_down_processes_exactly_witness :
    okMock.getVersion ⟨"0.3.0", []⟩ =
      (⟨"0.3.0", []⟩, Except.ok "0.3.0") ∧
    resolveDownTarget none threeCat (pvStr "0.3.0") =
      .ok ⟨0, 2, 0, [], []⟩ ∧
    migrate_down_with_list okMock ⟨"0.3.0", []⟩ none threeCat =
      downSpecApply okMock threeCat ⟨"0.3.0", []⟩
        (threeCat.reverse.filter
          (keepDown (pvStr "0.3.0") ⟨0, 2, 0, [], []⟩)) ∧
    migrate_down_with_list okMock ⟨"0.3.0", []⟩ none threeCat =
      (⟨"0.2.0", ["E:d3", "V:0.2.0"]⟩, none) :=
  ⟨rfl, by decide,
   migrate_down_processes_exactly okMock ⟨"0.3.0", []⟩ ⟨"0.3.0", []⟩
     "0.3.0" none ⟨0, 2, 0, [], []⟩ threeCat rfl (by decide) (by decide)
     (by decide),
   by decide⟩

/-! ## C2: failures abort the traversal immediately -/

theorem downSpecApply_append {σ ε : Type} (b : Backend σ ε)
    (all : List Migration) (l₁ l₂ : List Migration) :
    ∀ s, downSpecApply b all s (l₁ ++ l₂) =
      match downSpecApply b all s l₁ with
      | (s₁, none) => downSpecApply b all s₁ l₂
      | (s₁, some e) => (s₁, some e) := by
  induction l₁ with
  | nil => intro s; rfl
  | cons m rest ih =>
    intro s
    simp only [List.cons_append, downSpecApply]
    rcases (if m.down = "" then (s, (none : Option ε))
        else b.execute s m.down) with ⟨s₁, _ | e⟩
    · show (match b.setVersion s₁ (specGreatestBelow all (pv m)) with
            | (s₂, some e) => (s₂, some (MigErr.backend e))
            | (s₂, none) => downSpecApply b all s₂ (rest ++ l₂)) =
          (match (match b.setVersion s₁ (specGreatestBelow all (pv m)) with
                  | (s₂, some e) => (s₂, some (MigErr.backend e))
                  | (s₂, none) => downSpecApply b all s₂ rest) with
            | (s₁, none) => downSpecApply b all s₁ l₂
            | (s₁, some e) => (s₁, some e))
      rcases b.setVersion s₁ (specGreatestBelow all (pv m)) with ⟨s₂, _ | e⟩
      · exact ih s₂
      · rfl
    · rfl

/-- C2: if an `execute` or `set_version` call fails partway through a
`migrate_up` or `migrate_down` traversal, the runner returns that
error immediately: the result is exactly the failing call's state and
error — no later record is attempted, so the stored marker is whatever
the last successfully completed step wrote.  All four cases: `execute`
and `set_version` failing during `migrate_up`, and `execute` and
`set_version` failing during `migrate_down`. -/
theorem migrate_aborts_on_failure {σ ε : Type} (b : Backend σ ε)
    (s s' : σ) (verStr : String) (target : Option String)
    (ms : List Migration)
    (hget : b.getVersion s = (s', Except.ok verStr))
    (hparse : ∀ m' ∈ ms, (pvOpt m').isSome = true)
    (hsorted : ms.Pairwise (fun a c => vlt (pv a) (pv c))) :
    (∀ l₁ m l₂ (s₁ s₂ : σ) (e : ε),
      (∀ t ∈ target,
        (parseVersion (normalize_version t)).isSome = true) →
      ms.filter (keepUp (pvStr verStr) (target.map pvStr)) =
        l₁ ++ m :: l₂ →
      upApply b s' l₁ = (s₁, none) →
      b.execute s₁ m.up = (s₂, some e) →
      migrate_up_with_list b s target ms = (s₂, some (.backend e))) ∧
    (∀ l₁ m l₂ (s₁ s₁' s₂ : σ) (e : ε),
      (∀ t ∈ target,
        (parseVersion (normalize_version t)).isSome = true) →
      ms.filter (keepUp (pvStr verStr) (target.map pvStr)) =
        l₁ ++ m :: l₂ →
      upApply b s' l₁ = (s₁, none) →
      b.execute s₁ m.up = (s₁', none) →
      b.setVersion s₁' m.version = (s₂, some e) →
      migrate_up_with_list b s target ms = (s₂, some (.backend e))) ∧
    (∀ tv l₁ m l₂ (s₁ s₂ : σ) (e : ε),
      resolveDownTarget target ms (pvStr verStr) = .ok tv →
      ms.reverse.filter (keepDown (pvStr verStr) tv) = l₁ ++ m :: l₂ →
      downSpecApply b ms s' l₁ = (s₁, none) →
      ¬ m.down = "" →
      b.execute s₁ m.down = (s₂, some e) →
      migrate_down_with_list b s target ms = (s₂, some (.backend e))) ∧
    (∀ tv l₁ m l₂ (s₁ s₁' s₂ : σ) (e : ε),
      resolveDownTarget target ms (pvStr verStr) = .ok tv →
      ms.reverse.filter (keepDown (pvStr verStr) tv) = l₁ ++ m :: l₂ →
      downSpecApply b ms s' l₁ = (s₁, none) →
      (if m.down = "" then (s₁, (none : Option ε))
       else b.execute s₁ m.down) = (s₁', none) →
      b.setVersion s₁' (specGreatestBelow ms (pv m)) = (s₂, some e) →
      migrate_down_with_list b s target ms = (s₂, some (.backend e))) := by
  refine ⟨?_, ?_, ?_, ?_⟩
  · intro l₁ m l₂ s₁ s₂ e htgt hfilter hok hfail
    rw [migrate_up_filter_spec b s s' verStr target ms hget
      hparse hsorted htgt, hfilter, upApply_append, hok]
    simp only [upApply, hfail]
  · intro l₁ m l₂ s₁ s₁' s₂ e htgt hfilter hok hexec hfail
    rw [migrate_up_filter_spec b s s' verStr target ms hget
      hparse hsorted htgt, hfilter, upApply_append, hok]
    simp only [upApply, hexec, hfail]
  · intro tv l₁ m l₂ s₁ s₂ e hres hfilter hok hdown hfail
    rw [migrate_down_filter_spec b s s' verStr target tv ms hget
      hparse hsorted hres, hfilter, downSpecApply_append, hok]
    simp only [downSpecApply, if_neg hdown, hfail]
  · intro tv l₁ m l₂ s₁ s₁' s₂ e hres hfilter hok hexec hfail
    rw [migrate_down_filter_spec b s s' verStr target tv ms hget
      hparse hsorted hres, hfilter, downSpecApply_append, hok]
    simp only [downSpecApply, hexec, hfail]

/-- The backend whose `execute` fails on the statement `"d2"`. -/
def failDownMock : Backend MockSt Unit := mkMock ["d2"] []

/-- The backend whose `set_version` fails on the version `"0.2.0"`. -/
def failDownSetMock : Backend MockSt Unit := mkMock [] ["0.2.0"]

/-- The spec scenario for C2 and its downgrade counterparts: with
three pending ascending migrations and `execute` failing on the
second, the upgrade aborts with that error, the stored marker
afterwards is the first migration's version, and the third migration's
`up` step was never executed; dually, a downgrade from the top with
`execute` failing on the second descending record aborts leaving the
marker at the version written by the one completed downgrade step,
with the remaining `down` step never executed; and a downgrade whose
very first marker write (`set_version` to `"0.2.0"`) fails aborts with
the marker still at the original version and the later `down` steps
never executed. -/
theorem migrate_aborts_on_failure_witness :
    migrate_up_with_list failMock ⟨"0.0.0", []⟩ none threeCat =
      (⟨"0.1.0", ["E:u1", "V:0.1.0", "E:u2"]⟩, some (.backend ())) ∧
    (failMock.getVersion ⟨"0.1.0", ["E:u1", "V:0.1.0", "E:u2"]⟩).2 =
      Except.ok "0.1.0" ∧
    "E:u3" ∉ ["E:u1", "V:0.1.0", "E:u2"] ∧
    migrate_down_with_list failDownMock ⟨"0.3.0", []⟩ (some "0.0.0")
        threeCat =
      (⟨"0.2.0", ["E:d3", "V:0.2.0", "E:d2"]⟩, some (.backend ())) ∧
    (failDownMock.getVersion
        ⟨"0.2.0", ["E:d3", "V:0.2.0", "E:d2"]⟩).2 = Except.ok "0.2.0" ∧
    "E:d1" ∉ ["E:d3", "V:0.2.0", "E:d2"] ∧
    migrate_down_with_list failDownSetMock ⟨"0.3.0", []⟩ (some "0.0.0")
        threeCat =
      (⟨"0.3.0", ["E:d3", "V:0.2.0"]⟩, some (.backend ())) ∧
    (failDownSetMock.getVersion ⟨"0.3.0", ["E:d3", "V:0.2.0"]⟩).2 =
      Except.ok "0.3.0" ∧
    "E:d2" ∉ ["E:d3", "V:0.2.0"] := by
  have Hup := migrate_aborts_on_failure failMock ⟨"0.0.0", []⟩
    ⟨"0.0.0", []⟩ "0.0.0" none threeCat rfl (by decide) (by decide)
  have Hdown := migrate_aborts_on_failure failDownMock ⟨"0.3.0", []⟩
    ⟨"0.3.0", []⟩ "0.3.0" (some "0.0.0") threeCat rfl (by decide)
    (by decide)
  have Hset := migrate_aborts_on_failure failDownSetMock ⟨"0.3.0", []⟩
    ⟨"0.3.0", []⟩ "0.3.0" (some "0.0.0") threeCat rfl (by decide)
    (by decide)
  refine ⟨?_, rfl, by decide, ?_, rfl, by decide, ?_, rfl, by decide⟩
  · exact Hup.1 [⟨"0.1.0", "u1", "d1"⟩] ⟨"0.2.0", "u2", "d2"⟩
      [⟨"0.3.0", "u3", "d3"⟩] ⟨"0.1.0", ["E:u1", "V:0.1.0"]⟩
      ⟨"0.1.0", ["E:u1", "V:0.1.0", "E:u2"]⟩ () (by decide) (by decide)
      (by decide) (by decide)
  · exact Hdown.2.2.1 v000 [⟨"0.3.0", "u3", "d3"⟩] ⟨"0.2.0", "u2", "d2"⟩
      [⟨"0.1.0", "u1", "d1"⟩] ⟨"0.2.0", ["E:d3", "V:0.2.0"]⟩
      ⟨"0.2.0", ["E:d3", "V:0.2.0", "E:d2"]⟩ () (by decide) (by decide)
      (by decide) (by decide) (by decide)
  · exact Hset.2.2.2 v000 [] ⟨"0.3.0", "u3", "d3"⟩
      [⟨"0.2.0", "u2", "d2"⟩, ⟨"0.1.0", "u1", "d1"⟩] ⟨"0.3.0", []⟩
      ⟨"0.3.0", ["E:d3"]⟩ ⟨"0.3.0", ["E:d3", "V:0.2.0"]⟩ ()
      (by decide) (by decide) (by decide) (by decide) (by decide)

/-! ## C4: default target of `migrate_down` -/

theorem resolveLoop_spec (current : Version) (ms : List Migration) :
    ∀ acc, (∀ m ∈ ms, (pvOpt m).isSome = true) →
    ∃ r, resolveLoop current ms acc = .ok r ∧
      vle acc r ∧
      (r = acc ∨ ∃ m ∈ ms, pv m = r ∧ vlt r current) ∧
      (∀ m ∈ ms, vlt (pv m) current → vle (pv m) r) := by
  induction ms with
  | nil =>
    intro acc _
    exact ⟨acc, rfl, vle_refl acc, Or.inl rfl, by simp⟩
  | cons m rest ih =>
    intro acc hparse
    have hm : (pvOpt m).isSome = true := hparse m (by simp)
    obtain ⟨mvm, hmvm⟩ := Option.isSome_iff_exists.mp hm
    have hpv : pv m = mvm := by simp [pv, hmvm]
    have hparseRest : ∀ m' ∈ rest, (pvOpt m').isSome = true :=
      fun m' h => hparse m' (by simp [h])
    by_cases hc : vlt mvm current ∧ vlt acc mvm
    · obtain ⟨r, hr, hle, hdisj, hall⟩ := ih mvm hparseRest
      refine ⟨r, ?_, vle_trans (vle_of_vlt hc.2) hle, ?_, ?_⟩
      · simp only [resolveLoop, hmvm, if_pos hc]
        exact hr
      · rcases hdisj with h | ⟨m', hm', hpv', hlt'⟩
        · exact Or.inr ⟨m, by simp, by rw [hpv, h], h ▸ hc.1⟩
        · exact Or.inr ⟨m', by simp [hm'], hpv', hlt'⟩
      · intro m' hm' hlt'
        rcases List.mem_cons.mp hm' with h | h
        · rw [h, hpv]
          exact hle
        · exact hall m' h hlt'
    · obtain ⟨r, hr, hle, hdisj, hall⟩ := ih acc hparseRest
      refine ⟨r, ?_, hle, ?_, ?_⟩
      · simp only [resolveLoop, hmvm, if_neg hc]
        exact hr
      · rcases hdisj with h | ⟨m', hm', hpv', hlt'⟩
        · exact Or.inl h
        · exact Or.inr ⟨m', by simp [hm'], hpv', hlt'⟩
      · intro m' hm' hlt'
        rcases List.mem_cons.mp hm' with h | h
        · rw [h, hpv]
          have hpm : vlt mvm current := by
            rw [← hpv, ← h]
            exact hlt'
          have hnlt : ¬ vlt acc mvm := fun hh => hc ⟨hpm, hh⟩
          exact vle_trans (vle_of_not_vlt hnlt) hle
        · exact hall m' h hlt'

/-- C4: with no explicit target, `migrate_down` resolves the target to
the greatest normalized catalog version strictly below the normalized
current stored version, and to `0.0.0` (i.e. `v000`) when no catalog
version lies strictly below the current one. -/
theorem migrate_down_default_target (ms : List Migration)
    (current : Version)
    (hparse : ∀ m ∈ ms, (pvOpt m).isSome = true) :
    ∃ r, resolveDownTarget none ms current = .ok r ∧
      (r = v000 ∨ ∃ m ∈ ms, pv m = r ∧ vlt r current) ∧
      (∀ m ∈ ms, vlt (pv m) current → vle (pv m) r) ∧
      ((∀ m ∈ ms, ¬ vlt (pv m) current) → r = v000) := by
  obtain ⟨r, hr, _, hdisj, hall⟩ := resolveLoop_spec current ms v000 hparse
  refine ⟨r, hr, hdisj, hall, ?_⟩
  intro hnone
  rcases hdisj with h | ⟨m, hm, hpv, hlt⟩
  · exact h
  · exact absurd hlt (hpv ▸ hnone m hm)

theorem migrate_down_default_target_witness :
    (∀ m ∈ threeCat, (pvOpt m).isSome = true) ∧
    (∃ r, resolveDownTarget none threeCat ⟨0, 3, 0, [], []⟩ = .ok r ∧
      (r = v000 ∨ ∃ m ∈ threeCat, pv m = r ∧ vlt r ⟨0, 3, 0, [], []⟩) ∧
      (∀ m ∈ threeCat, vlt (pv m) ⟨0, 3, 0, [], []⟩ → vle (pv m) r) ∧
      ((∀ m ∈ threeCat, ¬ vlt (pv m) ⟨0, 3, 0, [], []⟩) → r = v000)) :=
  ⟨by decide,
   migrate_down_default_target threeCat ⟨0, 3, 0, [], []⟩ (by decide)⟩

/-! ## C8: no-op invocations -/

/-- C8 counterexample: a backend state whose stored marker text is
`"abc"` refutes the claim as stated over every backend state — calling
`migrate_up` (or `migrate_down`) with the target equal to that current
stored version text returns a parse error instead of succeeding,
because the target is parsed strictly while the stored version silently
fell back to `0.0.0`. -/
theorem migrate_noop_at_current_counterexample :
    migrate_up_with_list okMock ⟨"abc", []⟩ (some "abc") threeCat =
      (⟨"abc", []⟩, some (.parse "abc.0.0")) ∧
    migrate_down_with_list okMock ⟨"abc", []⟩ (some "abc") threeCat =
      (⟨"abc", []⟩, some (.parse "abc.0.0")) := by decide

theorem upLoop_noop {σ ε : Type} (b : Backend σ ε) (cur tv : Version)
    (htv : vle tv cur) (ms : List Migration) :
    ∀ s : σ, (∀ m ∈ ms, (pvOpt m).isSome = true) →
    upLoop b cur (some tv) s ms = (s, none) := by
  induction ms with
  | nil => intro s _; rfl
  | cons m rest ih =>
    intro s hparse
    obtain ⟨mv, hmv⟩ :=
      Option.isSome_iff_exists.mp (hparse m (by simp))
    have hparseRest : ∀ m' ∈ rest, (pvOpt m').isSome = true :=
      fun m' h => hparse m' (by simp [h])
    by_cases hcur : vlt cur mv
    · have hbrk : vlt tv mv := vlt_of_vle_of_vlt htv hcur
      simp [upLoop, hmv, if_pos hcur, hbrk]
    · simp only [upLoop, hmv, if_neg hcur]
      exact ih s hparseRest

theorem downLoop_noop {σ ε : Type} (b : Backend σ ε) (cur : Version)
    (all ms : List Migration) :
    ∀ s : σ, (∀ m ∈ ms, (pvOpt m).isSome = true) →
    downLoop b cur cur all s ms = (s, none) := by
  induction ms with
  | nil => intro s _; rfl
  | cons m rest ih =>
    intro s hparse
    obtain ⟨mv, hmv⟩ :=
      Option.isSome_iff_exists.mp (hparse m (by simp))
    have hparseRest : ∀ m' ∈ rest, (pvOpt m').isSome = true :=
      fun m' h => hparse m' (by simp [h])
    have hc : ¬ (vle mv cur ∧ vlt cur mv) :=
      fun ⟨h1, h2⟩ => not_vlt_of_vle h1 h2
    simp only [downLoop, hmv, if_neg hc]
    exact ih s hparseRest

/-- C8 amended: provided the normalized stored version text parses,
calling `migrate_up` with a target equal to the current stored version
applies zero steps and succeeds, calling `migrate_down` with a target
equal to the current stored version applies zero steps and succeeds,
and `migrate_up` with any target at or below the current version
applies zero steps and succeeds (no `execute` or `set_version` calls:
the state is exactly the post-`get_version` state). -/
theorem migrate_noop_at_current {σ ε : Type} (b : Backend σ ε)
    (s s' : σ) (verStr : String) (cur : Version) (ms : List Migration)
    (hget : b.getVersion s = (s', Except.ok verStr))
    (hcur : parseVersion (normalize_version verStr) = some cur)
    (hparse : ∀ m ∈ ms, (pvOpt m).isSome = true) :
    migrate_up_with_list b s (some verStr) ms = (s', none) ∧
    migrate_down_with_list b s (some verStr) ms = (s', none) ∧
    (∀ t tv, parseVersion (normalize_version t) = some tv →
      vle tv cur → migrate_up_with_list b s (some t) ms = (s', none)) := by
  have hpvs : pvStr verStr = cur := by simp [pvStr, hcur]
  refine ⟨?_, ?_, ?_⟩
  · simp only [migrate_up_with_list, hget, hcur, hpvs]
    exact upLoop_noop b cur cur (vle_refl cur) ms s' hparse
  · simp only [migrate_down_with_list, hget, hpvs, resolveDownTarget,
      hcur]
    exact downLoop_noop b cur ms ms.reverse s'
      (fun m h => hparse m (List.mem_reverse.mp h))
  · intro t tv htv hle
    simp only [migrate_up_with_list, hget, htv, hpvs]
    exact upLoop_noop b cur tv hle ms s' hparse

theorem migrate_noop_at_current_witness :
    parseVersion (normalize_version "0.2.0") =
      some ⟨0, 2, 0, [], []⟩ ∧
    (migrate_up_with_list okMock ⟨"0.2.0", []⟩ (some "0.2.0") threeCat =
      (⟨"0.2.0", []⟩, none) ∧
    migrate_down_with_list okMock ⟨"0.2.0", []⟩ (some "0.2.0") threeCat =
      (⟨"0.2.0", []⟩, none) ∧
    (∀ t tv, parseVersion (normalize_version t) = some tv →
      vle tv ⟨0, 2, 0, [], []⟩ →
      migrate_up_with_list okMock ⟨"0.2.0", []⟩ (some t) threeCat =
        (⟨"0.2.0", []⟩, none))) :=
  ⟨by decide,
   migrate_noop_at_current okMock ⟨"0.2.0", []⟩ ⟨"0.2.0", []⟩ "0.2.0"
     ⟨0, 2, 0, [], []⟩ threeCat rfl (by decide) (by decide)⟩

/-! ## C6: catalogs that are not strictly ascending -/

/-- A two-record catalog in descending (hence invalid) order. -/
def unsortedCat : List Migration :=
  [⟨"0.2.0", "u2", "d2"⟩, ⟨"0.1.0", "u1", "d1"⟩]

/-- C6 counterexample: a migration list that is not strictly ascending
is neither rejected at construction (the catalog is a bare list, no
constructing code validates it) nor treated as a fatal configuration
error by the runner: `migrate_up` on a descending two-record list
applies both steps in list order and returns success. -/
theorem unsorted_catalog_not_rejected_counterexample :
    ¬ unsortedCat.Pairwise (fun a c => vlt (pv a) (pv c)) ∧
    migrate_up_with_list okMock ⟨"0.0.0", []⟩ none unsortedCat =
      (⟨"0.1.0", ["E:u2", "V:0.2.0", "E:u1", "V:0.1.0"]⟩, none) := by
  decide

theorem upLoop_all_pending {σ ε : Type} (b : Backend σ ε)
    (cur : Version) (ms : List Migration) :
    ∀ s : σ, (∀ m ∈ ms, (pvOpt m).isSome = true) →
    (∀ m ∈ ms, vlt cur (pv m)) →
    upLoop b cur none s ms = upApply b s ms := by
  induction ms with
  | nil => intro s _ _; rfl
  | cons m rest ih =>
    intro s hparse habove
    obtain ⟨mv, hmv⟩ :=
      Option.isSome_iff_exists.mp (hparse m (by simp))
    have hpv : pv m = mv := by simp [pv, hmv]
    have hcur : vlt cur mv := hpv ▸ habove m (by simp)
    have hstep : upLoop b cur none s (m :: rest) =
        match b.execute s m.up with
        | (s₁, some e) => (s₁, some (MigErr.backend e))
        | (s₁, none) =>
          match b.setVersion s₁ m.version with
          | (s₂, some e) => (s₂, some (MigErr.backend e))
          | (s₂, none) => upLoop b cur none s₂ rest := by
      simp [upLoop, hmv, if_pos hcur]
    rw [hstep]
    simp only [upApply]
    exact upStep_congr b m s _ _
      (fun s' => ih s' (fun m' h => hparse m' (by simp [h]))
        (fun m' h => habove m' (by simp [h])))

/-- C6 amended: neither the catalog construction nor the runner checks
the ascending-order contract; an out-of-order list is traversed as-is
— with no target, every record whose parsed version is above the
current one is applied in raw list order, whatever that order is, and
the run reports no configuration error. -/
theorem migrate_up_no_order_check {σ ε : Type} (b : Backend σ ε)
    (s s' : σ) (verStr : String) (ms : List Migration)
    (hget : b.getVersion s = (s', Except.ok verStr))
    (hparse : ∀ m ∈ ms, (pvOpt m).isSome = true)
    (habove : ∀ m ∈ ms, vlt (pvStr verStr) (pv m)) :
    migrate_up_with_list b s none ms = upApply b s' ms := by
  simp only [migrate_up_with_list, hget]
  exact upLoop_all_pending b (pvStr verStr) ms s' hparse habove

theorem migrate_up_no_order_check_witness :
    (∀ m ∈ unsortedCat, vlt (pvStr "0.0.0") (pv m)) ∧
    migrate_up_with_list okMock ⟨"0.0.0", []⟩ none unsortedCat =
      upApply okMock ⟨"0.0.0", []⟩ unsortedCat :=
  ⟨by decide,
   migrate_up_no_order_check okMock ⟨"0.0.0", []⟩ ⟨"0.0.0", []⟩ "0.0.0"
     unsortedCat rfl (by decide) (by decide)⟩

/-! ## C5: malformed version strings -/

/-- C5 counterexample: the claim fails on the stored version marker —
with the marker text `"abc"` (malformed), `migrate_up` succeeds by
silently treating the current version as `0.0.0` instead of failing
with a ParseError; and the string `"1.2.3-alpha"`, malformed by the
claim's definition (its third dot-separated component is not an
integer), is accepted as a `migrate_up` target because the semver
parser reads it as a pre-release version. -/
theorem parse_error_handling_counterexample :
    migrate_up_with_list okMock ⟨"abc", []⟩ none demoCat =
      (⟨"0.2.0", ["E:u1", "V:0.1.0", "E:u2", "V:0.2.0"]⟩, none) ∧
    parseVersion (normalize_version "1.2.3-alpha") =
      some ⟨1, 2, 3, [.alphanum ['a', 'l', 'p', 'h', 'a']], []⟩ ∧
    migrate_up_with_list okMock ⟨"0.0.0", []⟩ (some "1.2.3-alpha")
        demoCat =
      (⟨"0.2.0", ["E:u1", "V:0.1.0", "E:u2", "V:0.2.0"]⟩, none) := by
  decide

theorem upLoop_hits_parse_error {σ ε : Type} (b : Backend σ ε)
    (cur : Version) (m : Migration) (hm : pvOpt m = none)
    (hexec : ∀ s₀ sql, (b.execute s₀ sql).2 = none)
    (hset : ∀ s₀ v, (b.setVersion s₀ v).2 = none)
    (ms₂ : List Migration) (ms₁ : List Migration) :
    ∀ s : σ, (∀ m' ∈ ms₁, (pvOpt m').isSome = true) →
    (upLoop b cur none s (ms₁ ++ m :: ms₂)).2 =
      some (.parse (normalize_version m.version)) := by
  induction ms₁ with
  | nil =>
    intro s _
    simp [upLoop, hm]
  | cons m₁ rest ih =>
    intro s hparse
    obtain ⟨mv₁, hmv₁⟩ :=
      Option.isSome_iff_exists.mp (hparse m₁ (by simp))
    have hparseRest : ∀ m' ∈ rest, (pvOpt m').isSome = true :=
      fun m' h => hparse m' (by simp [h])
    by_cases hcur : vlt cur mv₁
    · rcases hx : b.execute s m₁.up with ⟨s₁, r₁⟩
      have hr₁ : r₁ = none := by
        have h := hexec s m₁.up
        rw [hx] at h
        exact h
      subst hr₁
      rcases hy : b.setVersion s₁ m₁.version with ⟨s₂, r₂⟩
      have hr₂ : r₂ = none := by
        have h := hset s₁ m₁.version
        rw [hy] at h
        exact h
      subst hr₂
      have hstep : upLoop b cur none s ((m₁ :: rest) ++ m :: ms₂) =
          upLoop b cur none s₂ (rest ++ m :: ms₂) := by
        simp [upLoop, hmv₁, if_pos hcur, hx, hy]
      rw [hstep]
      exact ih s₂ hparseRest
    · have hstep : upLoop b cur none s ((m₁ :: rest) ++ m :: ms₂) =
          upLoop b cur none s (rest ++ m :: ms₂) := by
        simp [upLoop, hmv₁, if_neg hcur]
      rw [hstep]
      exact ih s hparseRest

theorem resolveLoop_hits_parse_error (cur : Version) (m : Migration)
    (hm : pvOpt m = none) (ms₂ ms₁ : List Migration) :
    ∀ acc : Version, (∀ m' ∈ ms₁, (pvOpt m').isSome = true) →
    resolveLoop cur (ms₁ ++ m :: ms₂) acc =
      .error (normalize_version m.version) := by
  induction ms₁ with
  | nil =>
    intro acc _
    simp [resolveLoop, hm]
  | cons m₁ rest ih =>
    intro acc hparse
    obtain ⟨mv₁, hmv₁⟩ :=
      Option.isSome_iff_exists.mp (hparse m₁ (by simp))
    simp only [List.cons_append, resolveLoop, hmv₁]
    exact ih _ (fun m' h => hparse m' (by simp [h]))

/-- C5 amended: a version string whose normalized form the semver
parser rejects is a fatal ParseError when it is the caller-supplied
target (both directions) or a catalog record's version reached by the
traversal (for `migrate_down` with no explicit target, any malformed
record version aborts during target resolution, before any backend
call); but a malformed stored version marker is not an error — the
runner silently falls back to treating the current version as
`0.0.0`. -/
theorem parse_error_handling {σ ε : Type} (b : Backend σ ε) (s s' : σ)
    (verStr : String)
    (hget : b.getVersion s = (s', Except.ok verStr)) :
    (∀ t ms, parseVersion (normalize_version t) = none →
      migrate_up_with_list b s (some t) ms =
        (s', some (.parse (normalize_version t))) ∧
      migrate_down_with_list b s (some t) ms =
        (s', some (.parse (normalize_version t)))) ∧
    (∀ ms₁ m ms₂, pvOpt m = none →
      (∀ m' ∈ ms₁, (pvOpt m').isSome = true) →
      (∀ s₀ sql, (b.execute s₀ sql).2 = none) →
      (∀ s₀ v, (b.setVersion s₀ v).2 = none) →
      (migrate_up_with_list b s none (ms₁ ++ m :: ms₂)).2 =
        some (.parse (normalize_version m.version))) ∧
    (∀ ms₁ m ms₂, pvOpt m = none →
      (∀ m' ∈ ms₁, (pvOpt m').isSome = true) →
      migrate_down_with_list b s none (ms₁ ++ m :: ms₂) =
        (s', some (.parse (normalize_version m.version)))) ∧
    (parseVersion (normalize_version verStr) = none →
      ∀ ms, migrate_up_with_list b s none ms =
        upLoop b v000 none s' ms) := by
  refine ⟨?_, ?_, ?_, ?_⟩
  · intro t ms ht
    constructor
    · simp [migrate_up_with_list, hget, ht]
    · simp [migrate_down_with_list, hget, resolveDownTarget, ht]
  · intro ms₁ m ms₂ hm hparse hexec hset
    simp only [migrate_up_with_list, hget]
    exact upLoop_hits_parse_error b (pvStr verStr) m hm hexec hset
      ms₂ ms₁ s' hparse
  · intro ms₁ m ms₂ hm hparse
    have hres := resolveLoop_hits_parse_error (pvStr verStr) m hm
      ms₂ ms₁ v000 hparse
    simp [migrate_down_with_list, hget, resolveDownTarget, hres]
  · intro hbad ms
    simp [migrate_up_with_list, hget, pvStr, hbad]

/-- A record whose version string cannot be parsed. -/
def badMig : Migration := ⟨"bad", "ub", "db"⟩

theorem parse_error_handling_witness :
    (migrate_up_with_list okMock ⟨"abc", []⟩ (some "xy.z") demoCat =
        (⟨"abc", []⟩, some (.parse "xy.z.0")) ∧
      migrate_down_with_list okMock ⟨"abc", []⟩ (some "xy.z") demoCat =
        (⟨"abc", []⟩, some (.parse "xy.z.0"))) ∧
    (migrate_up_with_list okMock ⟨"abc", []⟩ none
        ([⟨"0.1.0", "u1", "d1"⟩] ++ badMig :: [])).2 =
      some (.parse "bad.0.0") ∧
    migrate_down_with_list okMock ⟨"abc", []⟩ none
        ([⟨"0.1.0", "u1", "d1"⟩] ++ badMig :: []) =
      (⟨"abc", []⟩, some (.parse "bad.0.0")) ∧
    migrate_up_with_list okMock ⟨"abc", []⟩ none demoCat =
      upLoop okMock v000 none ⟨"abc", []⟩ demoCat := by
  have H := parse_error_handling okMock ⟨"abc", []⟩ ⟨"abc", []⟩ "abc" rfl
  exact ⟨H.1 "xy.z" demoCat (by decide),
    H.2.1 [⟨"0.1.0", "u1", "d1"⟩] badMig [] (by decide) (by decide)
      (fun s₀ sql => rfl) (fun s₀ v => rfl),
    H.2.2.1 [⟨"0.1.0", "u1", "d1"⟩] badMig [] (by decide) (by decide),
    H.2.2.2 (by decide) demoCat⟩

/-! ## C7: the initialization gate

`services/db_init.rs` abstracts the initialization steps behind the
trait `DatabaseInitHandler` (`init_db`, `migrate_up`,
`mark_initialized`); we embed that trait as a record of state-passing
operations and `init_database_internal` over it.  The admin command
`execute_migration_up` (commands/db.rs lines 63-81) is embedded over
its two effects (the full `migrate_up` call and `mark_as_initialized`,
whose error is discarded by `let _ = ...` in the source). -/

structure InitHandler (σ ε : Type) where
  init_db : σ → σ × Option ε
  migrate_up : σ → σ × Option ε
  mark_initialized : σ → σ × Option String

inductive InitErr (ε : Type) where
  | dbErr (e : ε)
  | markErr (m : String)
deriving DecidableEq

/-- `init_database_internal` (services/db_init.rs lines 76-106):
connect, and when the flag file does not exist run `migrate_up` (to
latest) and then `mark_initialized`, each `?`-propagating its error;
report whether a fresh migration occurred. -/
def init_database_internal {σ ε : Type} (h : InitHandler σ ε)
    (flagExists : Bool) (s : σ) : σ × Except (InitErr ε) Bool :=
  match h.init_db s with
  | (s₁, some e) => (s₁, .error (.dbErr e))
  | (s₁, none) =>
    if !flagExists then
      match h.migrate_up s₁ with
      | (s₂, some e) => (s₂, .error (.dbErr e))
      | (s₂, none) =>
        match h.mark_initialized s₂ with
        | (s₃, some msg) => (s₃, .error (.markErr msg))
        | (s₃, none) => (s₃, .ok true)
    else (s₁, .ok false)

/-- `execute_migration_up` (commands/db.rs lines 63-81): with a live
backend, run `migrate_up` with the caller-supplied target; on success
call `mark_as_initialized` discarding its result; on failure propagate
the error without marking. -/
def execute_migration_up {σ : Type} (hasDb : Bool)
    (mu : σ → Option String → σ × Option String)
    (mark : σ → σ × Option String) (target : Option String) (s : σ) :
    σ × Except String Unit :=
  if hasDb then
    match mu s target with
    | (s₁, some e) => (s₁, .error e)
    | (s₁, none) =>
      let p := mark s₁
      (p.1, .ok ())
  else (s, .error "Database not initialized")

/-- World state for exercising the gate: the mock store plus the
sentinel flag. -/
structure GateSt where
  db : MockSt
  gate : Bool
deriving DecidableEq

/-- The admin command's `migrate_up` effect over `demoCat` against the
all-succeeding backend. -/
def gateMu (s : GateSt) (target : Option String) :
    GateSt × Option String :=
  match migrate_up_with_list okMock s.db target demoCat with
  | (db', none) => ({ s with db := db' }, none)
  | (db', some _) => ({ s with db := db' }, some "migration failed")

/-- The `mark_as_initialized` effect: create the sentinel. -/
def gateMark (s : GateSt) : GateSt × Option String :=
  ({ s with gate := true }, none)

/-- C7 counterexample: the gate is not set "only after a `migrate_up`
run to the latest catalog version": `execute_migration_up` marks after
success with any target — with target `"0.0.5"`, below both records of
`demoCat`, the run applies zero steps (the store stays at `"0.0.0"`,
not at the latest version `"0.2.0"`), yet the gate ends up set. -/
theorem init_gate_counterexample :
    execute_migration_up true gateMu gateMark (some "0.0.5")
        ⟨⟨"0.0.0", []⟩, false⟩ =
      (⟨⟨"0.0.0", []⟩, true⟩, .ok ()) ∧
    (demoCat.map (fun m => m.version)).getLastD "0.0.0" = "0.2.0" := by
  decide

/-- C7 amended: the gate is set only after a successful `migrate_up`
run, but that run is to the latest version only on the startup path:
there a failing migration propagates its error with
`mark_initialized` never invoked (the result state is exactly the
failing call's state), success marks and reports a fresh migration,
and an existing flag skips migration entirely; the admin command marks
after success with any caller-supplied target and propagates failure
without marking. -/
theorem init_gate_after_success {σ ε : Type} (h : InitHandler σ ε)
    (s s₁ s₂ : σ)
    (mu : σ → Option String → σ × Option String)
    (mark : σ → σ × Option String) :
    (∀ e, h.init_db s = (s₁, none) → h.migrate_up s₁ = (s₂, some e) →
      init_database_internal h false s =
        (s₂, Except.error (InitErr.dbErr e))) ∧
    (h.init_db s = (s₁, none) → h.migrate_up s₁ = (s₂, none) →
      init_database_internal h false s =
        (match h.mark_initialized s₂ with
         | (s₃, some msg) => (s₃, Except.error (InitErr.markErr msg))
         | (s₃, none) => (s₃, Except.ok true))) ∧
    (h.init_db s = (s₁, none) →
      init_database_internal h true s = (s₁, Except.ok false)) ∧
    (∀ target e, mu s target = (s₁, some e) →
      execute_migration_up true mu mark target s =
        (s₁, Except.error e)) ∧
    (∀ target, mu s target = (s₁, none) →
      execute_migration_up true mu mark target s =
        ((mark s₁).1, Except.ok ())) := by
  refine ⟨?_, ?_, ?_, ?_, ?_⟩
  · intro e hinit hmig
    simp [init_database_internal, hinit, hmig]
  · intro hinit hmig
    simp [init_database_internal, hinit, hmig]
  · intro hinit
    simp [init_database_internal, hinit]
  · intro target e hmu
    simp [execute_migration_up, hmu]
  · intro target hmu
    simp [execute_migration_up, hmu]

/-- The startup handler over `demoCat`, with `execute` failing on the
second migration's `up` text. -/
def failGateHandler : InitHandler GateSt Unit where
  init_db := fun s => (s, none)
  migrate_up := fun s =>
    match migrate_up_with_list failMock s.db none demoCat with
    | (db', none) => ({ s with db := db' }, none)
    | (db', some _) => ({ s with db := db' }, some ())
  mark_initialized := gateMark

theorem init_gate_after_success_witness :
    failGateHandler.init_db ⟨⟨"0.0.0", []⟩, false⟩ =
      (⟨⟨"0.0.0", []⟩, false⟩, none) ∧
    failGateHandler.migrate_up ⟨⟨"0.0.0", []⟩, false⟩ =
      (⟨⟨"0.1.0", ["E:u1", "V:0.1.0", "E:u2"]⟩, false⟩, some ()) ∧
    init_database_internal failGateHandler false ⟨⟨"0.0.0", []⟩, false⟩ =
      (⟨⟨"0.1.0", ["E:u1", "V:0.1.0", "E:u2"]⟩, false⟩,
        Except.error (InitErr.dbErr ())) ∧
    gateMu ⟨⟨"0.0.0", []⟩, false⟩ (some "0.2.0") =
      (⟨⟨"0.2.0", ["E:u1", "V:0.1.0", "E:u2", "V:0.2.0"]⟩, false⟩,
        none) ∧
    execute_migration_up true gateMu gateMark (some "0.2.0")
        ⟨⟨"0.0.0", []⟩, false⟩ =
      (⟨⟨"0.2.0", ["E:u1", "V:0.1.0", "E:u2", "V:0.2.0"]⟩, true⟩,
        Except.ok ()) := by
  have H := init_gate_after_success failGateHandler
    ⟨⟨"0.0.0", []⟩, false⟩ ⟨⟨"0.0.0", []⟩, false⟩
    ⟨⟨"0.1.0", ["E:u1", "V:0.1.0", "E:u2"]⟩, false⟩ gateMu gateMark
  have H2 := init_gate_after_success failGateHandler
    ⟨⟨"0.0.0", []⟩, false⟩
    ⟨⟨"0.2.0", ["E:u1", "V:0.1.0", "E:u2", "V:0.2.0"]⟩, false⟩
    ⟨⟨"0.0.0", []⟩, false⟩ gateMu gateMark
  exact ⟨rfl, by decide,
    H.1 () rfl (by decide),
    by decide,
    H2.2.2.2.2 (some "0.2.0") (by decide)⟩

/-! ## C9: normalization properties -/

/-- C9: for every version string with 1 to 3 dot-separated integer
components, `normalize` is idempotent and its result has exactly 3
dot-separated components; in particular `"1"`, `"1.1"`, `"1.1.1"`
normalize to `"1.0.0"`, `"1.1.0"`, `"1.1.1"`. -/
theorem normalize_version_idem_and_three (v : String)
    (hlen : 1 ≤ (splitOnDot v.data).length ∧
      (splitOnDot v.data).length ≤ 3)
    (hint : ∀ p ∈ splitOnDot v.data,
      p ≠ [] ∧ ∀ c ∈ p, c.isDigit = true) :
    (normalize_version (normalize_version v) = normalize_version v ∧
      (splitOnDot (normalize_version v).data).length = 3) ∧
    (normalize_version "1" = "1.0.0" ∧
      normalize_version "1.1" = "1.1.0" ∧
      normalize_version "1.1.1" = "1.1.1") := by
  refine ⟨⟨normalize_version_idem v, ?_⟩, by decide, by decide,
    by decide⟩
  rw [normalize_version_components]
  rcases hlen with ⟨h1, h3⟩
  by_cases h : (splitOnDot v.data).length ≤ 2
  · rw [if_pos h]
  · rw [if_neg h]
    omega

theorem normalize_version_idem_and_three_witness :
    (1 ≤ (splitOnDot "1.2".data).length ∧
      (splitOnDot "1.2".data).length ≤ 3) ∧
    (∀ p ∈ splitOnDot "1.2".data,
      p ≠ [] ∧ ∀ c ∈ p, c.isDigit = true) ∧
    ((normalize_version (normalize_version "1.2") =
        normalize_version "1.2" ∧
      (splitOnDot (normalize_version "1.2").data).length = 3) ∧
    (normalize_version "1" = "1.0.0" ∧
      normalize_version "1.1" = "1.1.0" ∧
      normalize_version "1.1.1" = "1.1.1")) :=
  ⟨by decide, by decide,
   normalize_version_idem_and_three "1.2" (by decide) (by decide)⟩

/-! ## C10: the SQLite stored-version marker

`SqliteDatabase` (sqlite.rs) keeps the marker in the single-column
table `_app_meta`.  We model the table as `Option (List SqlVal)`
(missing, or a list of rows' version values) and embed the two marker
operations over it: the only statement `set_version` issues is
`UPDATE _app_meta SET version = ?`, whose SQL semantics errors when
the table is missing and otherwise overwrites the column in every
existing row — never inserting one, and succeeding even over zero
rows. -/

inductive SqlVal where
  | text (s : String)
  | int (i : Int)
  | nullv
  | other
deriving DecidableEq

structure SqliteSt where
  appMeta : Option (List SqlVal)
deriving DecidableEq

/-- `SqliteDatabase::get_version` (sqlite.rs lines 171-206): `"0.0.0"`
when `_app_meta` is missing or contains no row; otherwise the first
row's value — as-is for text, `to_string()` for an integer, `"0.0.0"`
for anything else. -/
def sqlite_get_version (st : SqliteSt) : String :=
  match st.appMeta with
  | none => "0.0.0"
  | some rows =>
    match rows.head? with
    | none => "0.0.0"
    | some (.text s) => s
    | some (.int i) => toString i
    | some _ => "0.0.0"

/-- `SqliteDatabase::set_version` (sqlite.rs lines 208-222). -/
def sqlite_set_version (st : SqliteSt) (v : String) :
    SqliteSt × Option String :=
  match st.appMeta with
  | none => (st, some "no such table: _app_meta")
  | some rows => (⟨some (rows.map (fun _ => .text v))⟩, none)

/-- C10: `set_version` only ever updates `_app_meta` and never inserts
a row — when the table exists but has no row it succeeds leaving the
state unchanged, so a subsequent `get_version` still returns `"0.0.0"`
(the marker row can only be created by a migration's up SQL run
through `execute`); the row count is preserved by every `set_version`;
and `get_version` coerces an integer-typed stored version to its
decimal string form. -/
theorem sqlite_set_version_never_inserts (st : SqliteSt) (v : String)
    (i : Int) (rows : List SqlVal) :
    (st.appMeta = some [] →
      sqlite_set_version st v = (st, none) ∧
      sqlite_get_version (sqlite_set_version st v).1 = "0.0.0") ∧
    ((sqlite_set_version st v).1.appMeta.map List.length =
      st.appMeta.map List.length) ∧
    sqlite_get_version ⟨some (.int i :: rows)⟩ = toString i := by
  obtain ⟨appMeta⟩ := st
  refine ⟨?_, ?_, rfl⟩
  · intro h
    simp only at h
    subst h
    exact ⟨rfl, rfl⟩
  · rcases appMeta with _ | rows'
    · rfl
    · simp [sqlite_set_version]

theorem sqlite_set_version_never_inserts_witness :
    (SqliteSt.mk (some []) |>.appMeta) = some [] ∧
    ((sqlite_set_version ⟨some []⟩ "1.0.0" = (⟨some []⟩, none) ∧
      sqlite_get_version (sqlite_set_version ⟨some []⟩ "1.0.0").1 =
        "0.0.0") ∧
    ((sqlite_set_version ⟨some []⟩ "1.0.0").1.appMeta.map List.length =
      (SqliteSt.mk (some []) |>.appMeta).map List.length) ∧
    sqlite_get_version ⟨some (.int 3 :: [])⟩ = toString (3 : Int)) := by
  refine ⟨rfl, ?_⟩
  have H := sqlite_set_version_never_inserts ⟨some []⟩ "1.0.0" 3 []
  exact ⟨H.1 rfl, H.2.1, H.2.2⟩

end EngUse
